import Mathlib

/-!
Verification of the deep-research frontend's streaming core.

This file gives a shallow embedding, over `List Char`, of the algorithmic
core of the repository:

* the SSE frame splitter and event decoder
  (`src/frontend/app/page.tsx`, `sendResearchMessage`, and the identical
  `SSEParser.parseBlock` / `SSEParser.processStream` utility class);
* the phase/progress state machine driven by the decoded events
  (`src/frontend/app/page.tsx`, lines 149-170);
* the markdown/table/citation renderer
  (`src/frontend/components/Report.tsx`, `parseMarkdown` / `buildTableHtml`,
  and the list pass of `parseSimpleMarkdown` in the FormattedText component);
* the report-content fallback of the `Report` component.

JavaScript strings are modelled as `List Char`; JSON values as the inductive
`Json` below.  The platform built-ins `JSON.parse` and `JSON.stringify` are
external to the repository and are abstracted as function parameters where
they occur.  All definitions are structural recursions so that every one of
them evaluates inside the kernel.
-/

/-- The whitespace characters recognised by the embedding of `String.trim`
(the common ASCII whitespace trimmed by JavaScript's `trim` and matched by
the regex class `\s` on the inputs of interest). -/
def wsChar (c : Char) : Bool :=
  c = ' ' || c = '\t' || c = '\n' || c = '\r'

/-- Embedding of JavaScript `String.prototype.trim`: drop whitespace from
both ends. -/
def trimChars (s : List Char) : List Char :=
  ((s.dropWhile wsChar).reverse.dropWhile wsChar).reverse

/-- Embedding of `String.prototype.split` on a single-character separator
(used by the source as `split(/\n/)` and `split("|")`). -/
def splitOnChar (sep : Char) : List Char → List (List Char)
  | [] => [[]]
  | c :: rest =>
    let r := splitOnChar sep rest
    if c = sep then [] :: r
    else
      match r with
      | [] => [[c]]
      | s :: ss => (c :: s) :: ss

/-- Embedding of `Array.prototype.join("\n")`. -/
def joinNl : List (List Char) → List Char
  | [] => []
  | [s] => s
  | s :: rest => s ++ '\n' :: joinNl rest

/-- The embedding of `s.startsWith(pat)`: `startsWithChars pat s`. -/
def startsWithChars : List Char → List Char → Bool
  | [], _ => true
  | _ :: _, [] => false
  | p :: ps, c :: cs => p = c && startsWithChars ps cs

/-- Whether `pat` occurs as a contiguous substring of `s`
(the embedding of `s.includes(pat)`). -/
def containsSeq (pat : List Char) : List Char → Bool
  | [] => startsWithChars pat []
  | c :: rest => startsWithChars pat (c :: rest) || containsSeq pat rest

/-- Number of (possibly overlapping) occurrences of `pat` in `s`. -/
def countSeq (pat : List Char) : List Char → Nat
  | [] => if startsWithChars pat [] then 1 else 0
  | c :: rest => (if startsWithChars pat (c :: rest) then 1 else 0) + countSeq pat rest

/-- Concatenation of a list of chunks (the text obtained by feeding all
chunks in one call). -/
def concatAll : List (List Char) → List Char
  | [] => []
  | c :: cs => c ++ concatAll cs

/-! ## FrameSplitter

`sendResearchMessage` (page.tsx lines 121-130) and `SSEParser.processStream`
keep a buffer, append each decoded chunk, split on the regular expression
`/\n\n/` (leftmost, non-overlapping), emit all segments but the last, and
retain the last segment as the new buffer. -/

/-- Leftmost, non-overlapping split of a string on the two-newline
delimiter, returning the complete frames and the trailing segment
(the embedding of `buf.split(/\n\n/)` followed by `blocks.pop()`). -/
def splitFrames : List Char → List (List Char) × List Char
  | [] => ([], [])
  | [c] => ([], [c])
  | c1 :: c2 :: rest =>
    if c1 = '\n' && c2 = '\n' then
      let p := splitFrames rest
      ([] :: p.1, p.2)
    else
      match splitFrames (c2 :: rest) with
      | ([], b) => ([], c1 :: b)
      | (f :: fs, b) => ((c1 :: f) :: fs, b)

/-- One call to the splitter: append the chunk to the buffer, return the
complete frames and the new buffer. -/
def push (buf chunk : List Char) : List (List Char) × List Char :=
  splitFrames (buf ++ chunk)

/-- Feed a list of chunks one call at a time, starting from the given
buffer; returns all frames emitted, in order, and the final buffer. -/
def pushAll : List Char → List (List Char) → List (List Char) × List Char
  | buf, [] => ([], buf)
  | buf, chunk :: rest =>
    let p := push buf chunk
    let q := pushAll p.2 rest
    (p.1 ++ q.1, q.2)

/-- Does the string contain the two-newline delimiter? -/
def containsDelim : List Char → Bool
  | [] => false
  | [_] => false
  | c1 :: c2 :: rest => (c1 = '\n' && c2 = '\n') || containsDelim (c2 :: rest)

/-! ## JSON values and JavaScript value helpers

Payloads decoded by `JSON.parse` are modelled by the inductive `Json`.
Numbers are modelled as integers (every payload number occurring in the
claims is integral).  `JSON.parse` itself is a platform built-in, external
to the repository, and is abstracted as a function parameter of type
`List Char → Option Json` wherever the source calls it. -/

/-- JSON values (the results of `JSON.parse`). -/
inductive Json where
  | null
  | bool (b : Bool)
  | num (n : Int)
  | str (s : List Char)
  | arr (xs : List Json)
  | obj (fields : List (List Char × Json))

/-- Property lookup `o[k]` on a parsed value: `some v` when the field is
present, `none` when absent or when the value is not an object
(JavaScript `undefined`). -/
def lookupField : List (List Char × Json) → List Char → Option Json
  | [], _ => none
  | (k, v) :: rest, key => if k = key then some v else lookupField rest key

/-- Property access `payload.k` in the source. -/
def getField (j : Json) (k : List Char) : Option Json :=
  match j with
  | Json.obj fields => lookupField fields k
  | _ => none

/-- JavaScript truthiness of a parsed JSON value. -/
def jsTruthy : Json → Bool
  | Json.null => false
  | Json.bool b => b
  | Json.num n => n != 0
  | Json.str s => !s.isEmpty
  | Json.arr _ => true
  | Json.obj _ => true

/-- The JavaScript expression `x || d` applied to a property access:
the value when present and truthy, otherwise the default. -/
def jsOr (o : Option Json) (d : Json) : Json :=
  match o with
  | some j => if jsTruthy j then j else d
  | none => d

/-! ## EventDecoder

`SSEParser.parseBlock` (and the identical inline loop of
`sendResearchMessage`, page.tsx lines 131-147): split the frame on single
newlines, trim each line, let a line starting with `event:` (re)set the
event name, collect every line starting with `data:` stripped of the
prefix and trimmed, and parse the collected lines joined by newlines as one
JSON value; yield nothing if the frame is blank, has no `data:` line, or
the JSON parse fails. -/

def eventLabelChars : List Char := "event:".toList

def dataLabelChars : List Char := "data:".toList

def messageChars : List Char := "message".toList

/-- One step of the line loop of `parseBlock`: update the event name and
the collected data lines. -/
def frameFold (acc : List Char × List (List Char)) (line : List Char) :
    List Char × List (List Char) :=
  let t := trimChars line
  let n := if startsWithChars eventLabelChars t then trimChars (t.drop 6) else acc.1
  let d := if startsWithChars dataLabelChars t then acc.2 ++ [trimChars (t.drop 5)] else acc.2
  (n, d)

/-- Embedding of `SSEParser.parseBlock`, parameterised by the abstract
JSON parser `jp` (the platform's `JSON.parse`, returning `none` on a parse
error). -/
def decodeFrame (jp : List Char → Option Json) (block : List Char) :
    Option (List Char × Json) :=
  if (trimChars block).isEmpty then none
  else
    let r := (splitOnChar '\n' block).foldl frameFold (messageChars, [])
    if r.2.isEmpty then none
    else
      match jp (joinNl r.2) with
      | some j => some (r.1, j)
      | none => none

/-- The data lines collected from a frame: each line whose trimmed form
starts with `data:`, stripped of the prefix and trimmed. -/
def collectData : List (List Char) → List (List Char)
  | [] => []
  | l :: ls =>
    (if startsWithChars dataLabelChars (trimChars l) then
      [trimChars ((trimChars l).drop 5)]
    else []) ++ collectData ls

/-! ## PhaseStateMachine

The event dispatch of `sendResearchMessage` (page.tsx lines 149-170):
mutable state `phase`, `progress` (percent), `logs`, `currentPlan`,
`currentSources`, `currentReport`, updated per decoded event.  Log lines
are modelled structurally (one constructor per `pushLog` call site); their
exact display text is presentation only. -/

def statusChars : List Char := "status".toList

def planChars : List Char := "plan".toList

def sourcesChars : List Char := "sources".toList

def logChars : List Char := "log".toList

def progressChars : List Char := "progress".toList

def doneChars : List Char := "done".toList

def errorChars : List Char := "error".toList

def phaseChars : List Char := "phase".toList

def textChars : List Char := "text".toList

def topChars : List Char := "top".toList

def countChars : List Char := "count".toList

def msgChars : List Char := "msg".toList

def percentChars : List Char := "percent".toList

def reportChars : List Char := "report".toList

def messageKeyChars : List Char := "message".toList

def unknownChars : List Char := "unknown".toList

/-- One log line, by `pushLog` call site. -/
inductive LogEntry where
  | statusLine (phase : Option Json)
  | planReceived
  | sourcesLine (count : Option Json)
  | msgLine (msg : Json)
  | doneLine
  | errorLine (msg : Json)

/-- The mutable state driven by the event loop of `sendResearchMessage`.
`phase` / `plan` / `sources` hold the raw JavaScript values stored by the
assignments (e.g. `payload.phase || ""`). -/
structure ProgressState where
  phase : Json
  percent : Int
  logLines : List LogEntry
  plan : Json
  sources : Json
  report : Json

/-- The state at the start of a research run: phase `""`, progress `0`,
no logs, `currentPlan = ""`, `currentSources = []`, `currentReport = null`. -/
def initialState : ProgressState :=
  { phase := Json.str [], percent := 0, logLines := [],
    plan := Json.str [], sources := Json.arr [], report := Json.null }

/-- One decoded event: name and parsed payload. -/
abbrev Event := List Char × Json

/-- The event dispatch of the loop body (page.tsx lines 149-170), applied
to one decoded event.  The branches appear in source order; there is no
guard on the current phase. -/
def step (s : ProgressState) (e : Event) : ProgressState :=
  if e.1 = statusChars then
    { s with phase := jsOr (getField e.2 phaseChars) (Json.str []),
             logLines := s.logLines ++ [LogEntry.statusLine (getField e.2 phaseChars)] }
  else if e.1 = planChars then
    { s with plan := jsOr (getField e.2 textChars) (Json.str []),
             logLines := s.logLines ++ [LogEntry.planReceived] }
  else if e.1 = sourcesChars then
    { s with sources := jsOr (getField e.2 topChars) (Json.arr []),
             logLines := s.logLines ++ [LogEntry.sourcesLine (getField e.2 countChars)] }
  else if e.1 = logChars then
    match getField e.2 msgChars with
    | some m =>
      if jsTruthy m then { s with logLines := s.logLines ++ [LogEntry.msgLine m] }
      else s
    | none => s
  else if e.1 = progressChars then
    match getField e.2 percentChars with
    | some (Json.num p) => { s with percent := p }
    | some _ => s
    | none => s
  else if e.1 = doneChars then
    { s with report := (match getField e.2 reportChars with
                        | some Json.null => e.2
                        | some j => j
                        | none => e.2),
             phase := Json.str doneChars,
             percent := 100,
             logLines := s.logLines ++ [LogEntry.doneLine] }
  else if e.1 = errorChars then
    { s with phase := Json.str errorChars,
             logLines := s.logLines ++
               [LogEntry.errorLine (jsOr (getField e.2 messageKeyChars) (Json.str unknownChars))] }
  else s

/-- Apply a sequence of decoded events in arrival order. -/
def runEvents (s : ProgressState) (es : List Event) : ProgressState :=
  es.foldl step s

/-! ## Citation substitution

`parseMarkdown` (Report.tsx lines 73-77) rewrites every occurrence of
`\[(\d+)\]` in the report body into a superscript marker that carries the
id in a `data-citation` attribute; `buildTableHtml` (lines 129-135)
applies the same pattern to each table body cell but substitutes a
different marker (no `data-citation` attribute, no cursor style).  The
scanner is shared; the replacement template is a parameter. -/

/-- The body replacement template of `parseMarkdown` step 8 for a matched
digit string. -/
def supBody (ds : List Char) : List Char :=
  "<sup style=\"color: #6366f1; font-weight: 600; cursor: pointer;\" data-citation=\"".toList
    ++ ds ++ "\">[".toList ++ ds ++ "]</sup>".toList

/-- The table-cell replacement template of `buildTableHtml`. -/
def supCell (ds : List Char) : List Char :=
  "<sup style=\"color: #6366f1; font-weight: 600;\">[".toList
    ++ ds ++ "]</sup>".toList

/-- Left-to-right global replacement of `\[(\d+)\]`.  The first argument is
the replacement template; the `Option` state holds the digits read so far
(in reverse) after an opening bracket. -/
def citeRun (tmpl : List Char → List Char) :
    Option (List Char) → List Char → List Char
  | none, [] => []
  | some ds, [] => '[' :: ds.reverse
  | none, c :: rest =>
    if c = '[' then citeRun tmpl (some []) rest
    else c :: citeRun tmpl none rest
  | some ds, c :: rest =>
    if c.isDigit then citeRun tmpl (some (c :: ds)) rest
    else if c = ']' && !ds.isEmpty then tmpl ds.reverse ++ citeRun tmpl none rest
    else if c = '[' then ('[' :: ds.reverse) ++ citeRun tmpl (some []) rest
    else ('[' :: ds.reverse) ++ (c :: citeRun tmpl none rest)

/-- Global citation replacement with template `tmpl`. -/
def citeReplace (tmpl : List Char → List Char) (s : List Char) : List Char :=
  citeRun tmpl none s

/-- The citation substitution applied to the report body. -/
def citeSubBody (s : List Char) : List Char := citeReplace supBody s

/-- The citation substitution applied to one table body cell. -/
def citeSubCell (s : List Char) : List Char := citeReplace supCell s

/-- A piece of the decomposition of a text by citation matches: a literal
character, or a matched citation id. -/
inductive Piece where
  | lit (c : Char)
  | cite (ds : List Char)

/-- Decomposition of a text into literal characters and matched citation
ids, with the same scanner state as `citeRun`. -/
def citePiecesRun : Option (List Char) → List Char → List Piece
  | none, [] => []
  | some ds, [] => Piece.lit '[' :: ds.reverse.map Piece.lit
  | none, c :: rest =>
    if c = '[' then citePiecesRun (some []) rest
    else Piece.lit c :: citePiecesRun none rest
  | some ds, c :: rest =>
    if c.isDigit then citePiecesRun (some (c :: ds)) rest
    else if c = ']' && !ds.isEmpty then Piece.cite ds.reverse :: citePiecesRun none rest
    else if c = '[' then
      (Piece.lit '[' :: ds.reverse.map Piece.lit) ++ citePiecesRun (some []) rest
    else
      (Piece.lit '[' :: ds.reverse.map Piece.lit) ++
        (Piece.lit c :: citePiecesRun none rest)

/-- The citation match structure of a text (literal spans and matched
ids), independent of any replacement template. -/
def citePieces (s : List Char) : List Piece := citePiecesRun none s

/-- Render a piece decomposition with a replacement template. -/
def renderPieces (tmpl : List Char → List Char) : List Piece → List Char
  | [] => []
  | Piece.lit c :: ps => c :: renderPieces tmpl ps
  | Piece.cite ds :: ps => tmpl ds ++ renderPieces tmpl ps

/-! ## TableBuilder

`parseMarkdown` (Report.tsx lines 21-51) collects maximal runs of trimmed
lines containing `|` and hands each run to `buildTableHtml` (lines
92-144), which removes separator-only rows (`/^[\|\-\s]+$/`), takes the
first remaining row as header, splits every row on `|`, trims each cell
and drops all empty cells, and applies the citation substitution to each
body cell.  The table structure (header cells and body rows of cells) is
modelled directly; the surrounding markup is fixed boilerplate. -/

/-- A row matching the separator filter `/^[\|\-\s]+$/`: non-empty and made
only of `|`, `-` and whitespace. -/
def isSepRow (r : List Char) : Bool :=
  !r.isEmpty && r.all (fun c => c = '|' || c = '-' || wsChar c)

/-- The content rows of a table block (separator rows removed). -/
def contentRowsOf (rows : List (List Char)) : List (List Char) :=
  rows.filter (fun r => !isSepRow r)

/-- The cells of one row: split on `|`, trim each cell, drop the cells that
are empty after trimming (`.filter((c) => c)`). -/
def rowCells (r : List Char) : List (List Char) :=
  ((splitOnChar '|' r).map trimChars).filter (fun c => !c.isEmpty)

/-- Embedding of `buildTableHtml` at the level of table structure: `none`
when no content row remains (the function returns `""`), otherwise the
header cells and the body rows of citation-substituted cells. -/
def buildTable (rows : List (List Char)) :
    Option (List (List Char) × List (List (List Char))) :=
  match contentRowsOf rows with
  | [] => none
  | h :: t => some (rowCells h, t.map (fun r => (rowCells r).map citeSubCell))

/-- The table-extraction loop of `parseMarkdown` (lines 27-49): group the
trimmed lines into maximal runs of lines containing `|`.  The accumulator
holds the current run in reverse (`tableRows`). -/
def tableBlocksAux : List (List Char) → List (List Char) → List (List (List Char))
  | acc, [] => if acc.isEmpty then [] else [acc.reverse]
  | acc, l :: ls =>
    let t := trimChars l
    if t.contains '|' then tableBlocksAux (t :: acc) ls
    else (if acc.isEmpty then [] else [acc.reverse]) ++ tableBlocksAux [] ls

/-- The table blocks (runs of `|`-containing trimmed lines) of a line
sequence. -/
def tableBlocks (lines : List (List Char)) : List (List (List Char)) :=
  tableBlocksAux [] lines

/-! ## The list pass of `parseSimpleMarkdown`

FormattedText component, lines 55-63: replace each line matching
`^[\-\*] (.+)$` by a list item; then a single (no `g` flag) replacement of
`/(<li[^>]*>.*<\/li>)/s` wraps the first-matched span in one `<ul>`; then
each line matching `^\d+\. (.+)$` becomes a list item.  No `<ol>` is ever
produced. -/

def liOpenChars : List Char := "<li style=\"margin-left: 1.5rem;\">".toList

def liCloseChars : List Char := "</li>".toList

def ulOpenChars : List Char := "<ul style=\"margin: 0.5rem 0; padding-left: 0;\">".toList

def ulCloseChars : List Char := "</ul>".toList

def ltLiChars : List Char := "<li".toList

/-- Per-line embedding of the bullet replacement `^[\-\*] (.+)$`. -/
def bulletLine (l : List Char) : List Char :=
  match l with
  | c :: d :: rest =>
    if (c = '-' || c = '*') && d = ' ' && !rest.isEmpty then
      liOpenChars ++ rest ++ liCloseChars
    else l
  | _ => l

/-- Per-line embedding of the numbered replacement `^\d+\. (.+)$`. -/
def numberedLine (l : List Char) : List Char :=
  let ds := l.takeWhile Char.isDigit
  if ds.isEmpty then l
  else
    match l.dropWhile Char.isDigit with
    | '.' :: ' ' :: rest =>
      if rest.isEmpty then l else liOpenChars ++ rest ++ liCloseChars
    | _ => l

/-- The bullet pass applied to the whole text (the regex runs with the
`m` flag: per line). -/
def bulletPass (s : List Char) : List Char :=
  joinNl ((splitOnChar '\n' s).map bulletLine)

/-- The numbered pass applied to the whole text. -/
def numberedPass (s : List Char) : List Char :=
  joinNl ((splitOnChar '\n' s).map numberedLine)

/-- Match of `<li[^>]*>` at the head of the input: the matched opening tag
and the remainder. -/
def liOpenParse (s : List Char) : Option (List Char × List Char) :=
  if startsWithChars ltLiChars s then
    let after := s.drop 3
    match after.dropWhile (fun c => !(c = '>')) with
    | '>' :: rest =>
      some (ltLiChars ++ after.takeWhile (fun c => !(c = '>')) ++ ['>'], rest)
    | _ => none
  else none

/-- Split at the last occurrence of `</li>`: the text through that
occurrence and the remainder after it. -/
def lastCloseSplit : List Char → Option (List Char × List Char)
  | [] => none
  | c :: rest =>
    match lastCloseSplit rest with
    | some (m, a) => some (c :: m, a)
    | none =>
      if startsWithChars liCloseChars (c :: rest) then
        some (liCloseChars, (c :: rest).drop 5)
      else none

/-- The first (leftmost) match of `/(<li[^>]*>.*<\/li>)/s` with a greedy
`.*`: the text before the match, the matched span, and the text after. -/
def firstLiMatch : List Char → Option (List Char × List Char × List Char)
  | [] => none
  | c :: rest =>
    match liOpenParse (c :: rest) with
    | some (op, r) =>
      match lastCloseSplit r with
      | some (mid, after) => some ([], op ++ mid, after)
      | none =>
        match firstLiMatch rest with
        | some (a, m, b) => some (c :: a, m, b)
        | none => none
    | none =>
      match firstLiMatch rest with
      | some (a, m, b) => some (c :: a, m, b)
      | none => none

/-- The single `<ul>` wrap (no `g` flag): wrap the first matched span,
leave the text unchanged when there is no match. -/
def wrapUl (s : List Char) : List Char :=
  match firstLiMatch s with
  | none => s
  | some (a, m, b) => a ++ ulOpenChars ++ m ++ ulCloseChars ++ b

/-- The complete list pass, in source order: bullet items, single
unordered-list wrap, numbered items. -/
def listPass (s : List Char) : List Char :=
  numberedPass (wrapUl (bulletPass s))

/-! ## Report content fallback

The `Report` component (Report.tsx lines 152-162): render nothing when the
report is falsy; render a string report directly; otherwise render
`report.content`, falling back to `JSON.stringify(report, null, 2)` when
that field is null or missing.  `JSON.stringify` is a platform built-in
and is abstracted as the parameter `stringify`. -/

def contentChars : List Char := "content".toList

/-- The markdown text selected for rendering: `none` when the component
returns `null`, otherwise the value of
`typeof report === "string" ? report : report.content ?? JSON.stringify(report, null, 2)`. -/
def reportContent (stringify : Json → List Char) (report : Json) : Option Json :=
  if jsTruthy report then
    match report with
    | Json.str s => some (Json.str s)
    | r =>
      match getField r contentChars with
      | some Json.null => some (Json.str (stringify r))
      | none => some (Json.str (stringify r))
      | some j => some j
  else none

/-! ## Concrete inputs used by the claim statements -/

/-- A concrete `done` event carrying a report payload. -/
def doneEvC : Event := (doneChars, Json.obj [(reportChars, Json.str ['r'])])

/-- A concrete `progress` event with the given numeric percent. -/
def progressEvC (n : Int) : Event := (progressChars, Json.obj [(percentChars, Json.num n)])

/-- A JSON parser that fails on every input (used by the C4 witness). -/
def jpNone : List Char → Option Json := fun _ => none

/-- A concrete `done` event whose payload has a `report` field that is
present but null. -/
def doneNullEvC : Event := (doneChars, Json.obj [(reportChars, Json.null)])

/-- The three-line table input of the C6 round-trip. -/
def tblInputC : List Char := "A | B\n---|---\n1 | 2".toList

/-- The text used by the C8 claim. -/
def claimInputC : List Char := "Claim [1]".toList

/-- The attribute name carried only by the body citation marker. -/
def dataCitChars : List Char := "data-citation".toList

/-- The two-run bullet input of the C9 counterexample. -/
def listGapInputC : List Char := "- a\nx\n- b".toList

/-- A trivial serialisation used to close the C10 statements (the real
`JSON.stringify` is a platform built-in abstracted as a parameter). -/
def zeroStringify : Json → List Char := fun _ => []

/-! ## Lemmas -/

/-- Induction principle matching the recursion pattern of the frame
splitter: empty list, singleton, and two-cons with hypotheses for both the
tail and the tail-of-tail. -/
theorem twoStepInduction {motive : List Char → Prop} (h0 : motive [])
    (h1 : ∀ c, motive [c])
    (h2 : ∀ c1 c2 rest, motive rest → motive (c2 :: rest) →
      motive (c1 :: c2 :: rest)) :
    ∀ s, motive s
  | [] => h0
  | [c] => h1 c
  | c1 :: c2 :: rest =>
    h2 c1 c2 rest (twoStepInduction h0 h1 h2 rest)
      (twoStepInduction h0 h1 h2 (c2 :: rest))

/-- If a split produced no complete frame, the retained buffer is the whole
input. -/
theorem splitFrames_nil_frames :
    ∀ s : List Char, (splitFrames s).1 = [] → (splitFrames s).2 = s := by
  intro s
  induction s using twoStepInduction with
  | h0 => intro _; rfl
  | h1 c => intro _; rfl
  | h2 c1 c2 rest ih1 ih2 =>
    intro h
    cases hnl : (c1 = '\n' && c2 = '\n') with
    | true =>
      simp only [splitFrames, hnl, if_true] at h
      exact (List.cons_ne_nil _ _ h).elim
    | false =>
      simp only [splitFrames, hnl, Bool.false_eq_true, if_false] at h ⊢
      rcases hsp : splitFrames (c2 :: rest) with ⟨fs, b⟩
      cases fs with
      | nil =>
        simp only [hsp] at h ⊢
        have hb : b = c2 :: rest := by
          have := ih2 (by rw [hsp])
          rw [hsp] at this
          exact this
        rw [hb]
      | cons f fs' =>
        simp only [hsp] at h
        exact (List.cons_ne_nil _ _ h).elim

/-- The retained buffer never contains a complete frame: splitting it again
yields no frames. -/
theorem splitFrames_tail :
    ∀ s : List Char, splitFrames ((splitFrames s).2) = ([], (splitFrames s).2) := by
  intro s
  induction s using twoStepInduction with
  | h0 => rfl
  | h1 c => rfl
  | h2 c1 c2 rest ih1 ih2 =>
    cases hnl : (c1 = '\n' && c2 = '\n') with
    | true =>
      simp only [splitFrames, hnl, if_true]
      exact ih1
    | false =>
      simp only [splitFrames, hnl, Bool.false_eq_true, if_false]
      rcases hsp : splitFrames (c2 :: rest) with ⟨fs, b⟩
      cases fs with
      | nil =>
        have hb : b = c2 :: rest := by
          have h2 := splitFrames_nil_frames (c2 :: rest) (by rw [hsp])
          rw [hsp] at h2
          exact h2
        simp only []
        rw [hb] at hsp ⊢
        simp only [splitFrames, hnl, Bool.false_eq_true, if_false, hsp]
      | cons f fs' =>
        simp only []
        have h2 := ih2
        rw [hsp] at h2
        exact h2

/-- Splitting a concatenation: the frames of `s ++ t` are the frames of `s`
followed by the frames of `s`'s retained buffer extended by `t`. -/
theorem splitFrames_append :
    ∀ s t : List Char,
      splitFrames (s ++ t) =
        ((splitFrames s).1 ++ (splitFrames ((splitFrames s).2 ++ t)).1,
         (splitFrames ((splitFrames s).2 ++ t)).2) := by
  intro s
  induction s using twoStepInduction with
  | h0 => intro t; simp [splitFrames]
  | h1 c => intro t; simp [splitFrames]
  | h2 c1 c2 rest ih1 ih2 =>
    intro t
    cases hnl : (c1 = '\n' && c2 = '\n') with
    | true =>
      have ih := ih1 t
      have hS : splitFrames (c1 :: c2 :: rest) =
          ([] :: (splitFrames rest).1, (splitFrames rest).2) := by
        simp only [splitFrames, hnl, if_true]
      have hL : splitFrames ((c1 :: c2 :: rest) ++ t) =
          ([] :: (splitFrames (rest ++ t)).1, (splitFrames (rest ++ t)).2) := by
        simp only [List.cons_append, splitFrames, hnl, if_true]
        simp [List.append_eq]
      rw [hL, hS, ih]
      simp
    | false =>
      have ih := ih2 t
      simp only [List.cons_append] at ih
      rcases hsp : splitFrames (c2 :: rest) with ⟨fs, b⟩
      rw [hsp] at ih
      cases fs with
      | nil =>
        have hb : b = c2 :: rest := by
          have h3 := splitFrames_nil_frames (c2 :: rest) (by rw [hsp])
          rw [hsp] at h3
          exact h3
        have hS : splitFrames (c1 :: c2 :: rest) = ([], c1 :: b) := by
          simp only [splitFrames, hnl, Bool.false_eq_true, if_false, hsp]
        rw [hS]
        subst hb
        simp
      | cons f fs' =>
        have hS : splitFrames (c1 :: c2 :: rest) = ((c1 :: f) :: fs', b) := by
          simp only [splitFrames, hnl, Bool.false_eq_true, if_false, hsp]
        have hL : splitFrames ((c1 :: c2 :: rest) ++ t) =
            (match splitFrames (c2 :: (rest ++ t)) with
             | ([], b) => ([], c1 :: b)
             | (f :: fs, b) => ((c1 :: f) :: fs, b)) := by
          simp only [List.cons_append, splitFrames, hnl, Bool.false_eq_true,
            if_false]
          simp [List.append_eq]
        rw [hL, hS, ih]
        simp

/-- A string without the two-newline delimiter splits into no frames and is
retained whole. -/
theorem splitFrames_of_noDelim :
    ∀ s : List Char, containsDelim s = false → splitFrames s = ([], s) := by
  intro s
  induction s using twoStepInduction with
  | h0 => intro _; rfl
  | h1 c => intro _; rfl
  | h2 c1 c2 rest ih1 ih2 =>
    intro h
    simp only [containsDelim, Bool.or_eq_false_iff] at h
    have hrec := ih2 h.2
    simp only [splitFrames, h.1, Bool.false_eq_true, if_false, hrec]

/-- Feeding chunks one at a time, starting from a delimiter-free buffer,
produces the same frames and final buffer as splitting the buffer extended
by all chunks at once. -/
theorem pushAll_eq :
    ∀ (chunks : List (List Char)) (buf : List Char),
      splitFrames buf = ([], buf) →
      pushAll buf chunks = splitFrames (buf ++ concatAll chunks) := by
  intro chunks
  induction chunks with
  | nil =>
    intro buf h
    simp only [pushAll, concatAll, List.append_nil, h]
  | cons c cs ih =>
    intro buf h
    have htail : splitFrames ((splitFrames (buf ++ c)).2) =
        ([], (splitFrames (buf ++ c)).2) := splitFrames_tail (buf ++ c)
    have hrec := ih ((splitFrames (buf ++ c)).2) htail
    have happ := splitFrames_append (buf ++ c) (concatAll cs)
    simp only [pushAll, push, hrec, concatAll]
    rw [← List.append_assoc]
    rw [happ]

/-- The fold of `parseBlock` collects exactly `collectData` after the given
accumulator. -/
theorem frameFold_snd :
    ∀ (lines : List (List Char)) (n : List Char) (ds : List (List Char)),
      (lines.foldl frameFold (n, ds)).2 = ds ++ collectData lines := by
  intro lines
  induction lines with
  | nil => intro n ds; simp [collectData]
  | cons l ls ih =>
    intro n ds
    simp only [List.foldl_cons, collectData]
    rw [show frameFold (n, ds) l =
      ((frameFold (n, ds) l).1,
        ds ++ (if startsWithChars dataLabelChars (trimChars l) then
          [trimChars ((trimChars l).drop 5)] else [])) from ?_]
    · rw [ih]
      simp [List.append_assoc]
    · simp only [frameFold]
      cases startsWithChars dataLabelChars (trimChars l) <;> simp

/-- If no line of the frame carries the `data:` prefix, nothing is
collected. -/
theorem collectData_nil_of_noData :
    ∀ lines : List (List Char),
      (∀ l ∈ lines, startsWithChars dataLabelChars (trimChars l) = false) →
      collectData lines = [] := by
  intro lines
  induction lines with
  | nil => intro _; rfl
  | cons l ls ih =>
    intro h
    have hl := h l (by simp)
    simp only [collectData, hl, Bool.false_eq_true, if_false, List.nil_append]
    exact ih (fun x hx => h x (by simp [hx]))

/-- The data lines actually joined and parsed by `decodeFrame` are
`collectData` of the frame's lines. -/
theorem decode_dataLines (block : List Char) :
    ((splitOnChar '\n' block).foldl frameFold (messageChars, [])).2 =
      collectData (splitOnChar '\n' block) := by
  simpa using frameFold_snd (splitOnChar '\n' block) messageChars []

theorem renderPieces_append (tmpl : List Char → List Char) :
    ∀ a b : List Piece,
      renderPieces tmpl (a ++ b) = renderPieces tmpl a ++ renderPieces tmpl b := by
  intro a b
  induction a with
  | nil => simp [renderPieces]
  | cons p ps ih =>
    cases p with
    | lit c => simp [renderPieces, ih]
    | cite ds => simp [renderPieces, ih]

theorem renderPieces_lits (tmpl : List Char → List Char) :
    ∀ l : List Char, renderPieces tmpl (l.map Piece.lit) = l := by
  intro l
  induction l with
  | nil => simp [renderPieces]
  | cons c cs ih => simp [renderPieces, ih]

/-- The global replacement is the rendering of the match decomposition:
the positions and ids of matches do not depend on the template. -/
theorem citeRun_eq_renderPieces (tmpl : List Char → List Char) :
    ∀ (s : List Char) (st : Option (List Char)),
      citeRun tmpl st s = renderPieces tmpl (citePiecesRun st s) := by
  intro s
  induction s with
  | nil =>
    intro st
    cases st with
    | none => rfl
    | some ds =>
      simp [citeRun, citePiecesRun, renderPieces, renderPieces_lits]
      rw [← List.map_reverse, renderPieces_lits]
  | cons c rest ih =>
    intro st
    cases st with
    | none =>
      by_cases hbr : c = '['
      · simp [citeRun, citePiecesRun, hbr, ih]
      · simp [citeRun, citePiecesRun, hbr, renderPieces, ih]
    | some ds =>
      by_cases hd : c.isDigit
      · simp [citeRun, citePiecesRun, hd, ih]
      · by_cases hcl : (c = ']' && !ds.isEmpty) = true
        · simp [citeRun, citePiecesRun, hd, hcl, renderPieces, ih]
        · by_cases hbr : c = '['
          · simp [citeRun, citePiecesRun, hd, hcl, hbr, renderPieces,
              renderPieces_append, renderPieces_lits, ih]
            rw [← List.map_reverse, renderPieces_lits]
          · simp [citeRun, citePiecesRun, hd, hcl, hbr, renderPieces,
              renderPieces_append, renderPieces_lits, ih]
            rw [← List.map_reverse, renderPieces_lits]

/-! ## Claims -/

/-- C1 counterexample: the event loop has no terminal-state guard.  After a
`done` event (phase `done`, percent forced to 100), a subsequent `progress`
event still changes the percent to 30, so the `done` state is not left
unchanged by further events. -/
theorem c1Counterexample :
    (step initialState doneEvC).phase = Json.str doneChars ∧
    (step initialState doneEvC).percent = 100 ∧
    (step (step initialState doneEvC) (progressEvC 30)).percent = 30 :=
  ⟨rfl, rfl, rfl⟩

/-- C1 (amended): `done` and `error` are not terminal guards — the
processing of an event never depends on the current phase.  Replacing the
phase of the pre-state changes nothing in the effect of any event on
percent, logs, plan, sources or report, and the resulting phase is either
set by the event (both runs agree) or passed through unchanged.  In
particular events arriving after `done` or `error` are applied with their
usual effect. -/
theorem c1StepIgnoresPhase (s : ProgressState) (e : Event) (p : Json) :
    ((step { s with phase := p } e).percent = (step s e).percent) ∧
    ((step { s with phase := p } e).logLines = (step s e).logLines) ∧
    ((step { s with phase := p } e).plan = (step s e).plan) ∧
    ((step { s with phase := p } e).sources = (step s e).sources) ∧
    ((step { s with phase := p } e).report = (step s e).report) ∧
    ((step { s with phase := p } e).phase = (step s e).phase ∨
      ((step { s with phase := p } e).phase = p ∧ (step s e).phase = s.phase)) := by
  simp only [step]
  by_cases h1 : e.1 = statusChars
  · simp +decide [h1]
  by_cases h2 : e.1 = planChars
  · simp +decide [h1, h2]
  by_cases h3 : e.1 = sourcesChars
  · simp +decide [h1, h2, h3]
  by_cases h4 : e.1 = logChars
  · simp only [h1, h2, h3, h4, if_false, if_true]
    cases hm : getField e.2 msgChars with
    | none => simp +decide
    | some m => cases ht : jsTruthy m <;> simp +decide [ht]
  by_cases h5 : e.1 = progressChars
  · simp only [h1, h2, h3, h4, h5, if_false, if_true]
    cases hm : getField e.2 percentChars with
    | none => simp +decide
    | some m => cases m <;> simp +decide
  by_cases h6 : e.1 = doneChars
  · simp +decide [h1, h2, h3, h4, h5, h6]
  by_cases h7 : e.1 = errorChars
  · simp +decide [h1, h2, h3, h4, h5, h6, h7]
  · simp [h1, h2, h3, h4, h5, h6, h7]

/-- C2: chunk-boundary invariance of frame splitting.  (1) Feeding any
chunk sequence one call at a time yields the same ordered frames and the
same final buffer as feeding the concatenated text in one call — in
particular the two-newline delimiter may be split across consecutive
calls; (2) hence the decoded events agree as well; (3) a call whose
accumulated buffer contains no delimiter yields zero frames and only grows
the buffer. -/
theorem c2ChunkInvariance :
    (∀ chunks : List (List Char),
        pushAll [] chunks = push [] (concatAll chunks)) ∧
    (∀ (jp : List Char → Option Json) (chunks : List (List Char)),
        ((pushAll [] chunks).1).filterMap (decodeFrame jp) =
          ((push [] (concatAll chunks)).1).filterMap (decodeFrame jp)) ∧
    (∀ buf chunk : List Char, containsDelim (buf ++ chunk) = false →
        push buf chunk = ([], buf ++ chunk)) := by
  have hmain : ∀ chunks : List (List Char),
      pushAll [] chunks = push [] (concatAll chunks) := by
    intro chunks
    have h := pushAll_eq chunks [] rfl
    simpa [push] using h
  refine ⟨hmain, ?_, ?_⟩
  · intro jp chunks
    rw [hmain]
  · intro buf chunk h
    have h2 := splitFrames_of_noDelim (buf ++ chunk) h
    simpa [push] using h2

/-- C2 witness: concrete instances — the delimiter split across two calls
(`"a\n"` then `"\nb"`) gives the same result as one call, and a call with
no delimiter in the accumulated buffer emits zero frames. -/
theorem c2ChunkInvarianceWitness :
    pushAll [] ["a\n".toList, "\nb".toList] =
      push [] (concatAll ["a\n".toList, "\nb".toList]) ∧
    containsDelim ("ev".toList ++ "x7".toList) = false ∧
    push "ev".toList "x7".toList = ([], "ev".toList ++ "x7".toList) :=
  ⟨c2ChunkInvariance.1 _, by decide, c2ChunkInvariance.2.2 _ _ (by decide)⟩

/-- C3 counterexample: percent is not non-decreasing while the phase is
non-`error`.  From the initial state, `progress 80` then `progress 30`
moves the percent from 80 down to 30 with the phase equal to `""` (neither
`done` nor `error`) throughout. -/
theorem c3Counterexample :
    (step initialState (progressEvC 80)).percent = 80 ∧
    (step initialState (progressEvC 80)).phase = Json.str [] ∧
    (step (step initialState (progressEvC 80)) (progressEvC 30)).percent = 30 ∧
    (step (step initialState (progressEvC 80)) (progressEvC 30)).phase = Json.str [] ∧
    Json.str [] ≠ Json.str errorChars ∧ (30 : Int) < 80 := by
  refine ⟨rfl, rfl, rfl, rfl, ?_, by decide⟩
  intro h
  injection h with h2
  exact absurd h2 (by decide)

/-- C3 (amended): the percent is changed only by a `progress` event whose
payload has a numeric `percent` field (set to that value, which may be
smaller than the current percent) and by a `done` event (set to 100);
every other event leaves the percent unchanged. -/
theorem c3PercentCharacterization (s : ProgressState) (e : Event) :
    (step s e).percent =
      (if e.1 = progressChars then
        match getField e.2 percentChars with
        | some (Json.num p) => p
        | some _ => s.percent
        | none => s.percent
      else if e.1 = doneChars then (100 : Int)
      else s.percent) := by
  simp only [step]
  by_cases h1 : e.1 = statusChars
  · simp +decide [h1]
  by_cases h2 : e.1 = planChars
  · simp +decide [h1, h2]
  by_cases h3 : e.1 = sourcesChars
  · simp +decide [h1, h2, h3]
  by_cases h4 : e.1 = logChars
  · simp only [h1, h2, h3, h4, if_false, if_true]
    cases hm : getField e.2 msgChars with
    | none => simp +decide
    | some m => cases ht : jsTruthy m <;> simp +decide [ht]
  by_cases h5 : e.1 = progressChars
  · simp only [h1, h2, h3, h4, h5, if_false, if_true]
    cases hm : getField e.2 percentChars with
    | none => simp +decide
    | some m => cases m <;> simp +decide
  by_cases h6 : e.1 = doneChars
  · simp +decide [h1, h2, h3, h4, h5, h6]
  by_cases h7 : e.1 = errorChars
  · simp +decide [h1, h2, h3, h4, h5, h6, h7]
  · simp [h1, h2, h3, h4, h5, h6, h7]

/-- C4: decoder silent-skip.  A frame with no `data:` line decodes to
nothing; a frame whose joined data lines fail to parse as JSON decodes to
nothing; and a frame that decodes to nothing never affects the decoding of
the frames around it. -/
theorem c4DecoderSilentSkip :
    (∀ (jp : List Char → Option Json) (block : List Char),
        (∀ l ∈ splitOnChar '\n' block,
          startsWithChars dataLabelChars (trimChars l) = false) →
        decodeFrame jp block = none) ∧
    (∀ (jp : List Char → Option Json) (block : List Char),
        jp (joinNl (collectData (splitOnChar '\n' block))) = none →
        decodeFrame jp block = none) ∧
    (∀ (jp : List Char → Option Json) (bad : List Char)
        (fs1 fs2 : List (List Char)),
        decodeFrame jp bad = none →
        (fs1 ++ bad :: fs2).filterMap (decodeFrame jp) =
          fs1.filterMap (decodeFrame jp) ++ fs2.filterMap (decodeFrame jp)) := by
  refine ⟨?_, ?_, ?_⟩
  · intro jp block h
    have hc : collectData (splitOnChar '\n' block) = [] :=
      collectData_nil_of_noData _ h
    simp [decodeFrame, decode_dataLines, hc]
  · intro jp block h
    simp [decodeFrame, decode_dataLines, h]
  · intro jp bad fs1 fs2 h
    simp [List.filterMap_append, List.filterMap_cons, h]

/-- C4 witness: a frame with no `data:` line, a frame whose data fails to
parse, and a malformed frame between two frames. -/
theorem c4DecoderSilentSkipWitness :
    decodeFrame jpNone "hello".toList = none ∧
    decodeFrame jpNone "data: x".toList = none ∧
    (["data: 1".toList] ++ "hello".toList :: ["data: 2".toList]).filterMap
        (decodeFrame jpNone) =
      ["data: 1".toList].filterMap (decodeFrame jpNone) ++
        ["data: 2".toList].filterMap (decodeFrame jpNone) :=
  ⟨c4DecoderSilentSkip.1 jpNone _ (by decide),
   c4DecoderSilentSkip.2.1 jpNone _ rfl,
   c4DecoderSilentSkip.2.2 jpNone _ _ _
     (c4DecoderSilentSkip.1 jpNone _ (by decide))⟩

/-- C5 counterexample: on a `done` event whose payload carries a present
`report` field equal to null, the code stores the whole payload (the
nullish-coalescing `payload.report ?? payload`), not the field's value, so
"the payload's `report` field when that field is present" fails for a
present-but-null field. -/
theorem c5Counterexample :
    getField doneNullEvC.2 reportChars = some Json.null ∧
    (step initialState doneNullEvC).report = doneNullEvC.2 ∧
    doneNullEvC.2 ≠ Json.null := by
  refine ⟨rfl, rfl, ?_⟩
  intro h
  exact Json.noConfusion h

/-- C5 (amended): a `done` event applied in a non-terminal state stores,
as the report, the payload's `report` field when that field is present and
non-null and otherwise the whole payload; it sets the phase to `done`,
forces the percent to 100, and appends a final log line.  (The code does
this in every state; the hypotheses restrict the statement to the
non-terminal states named by the claim.) -/
theorem c5DoneEffect (s : ProgressState) (payload : Json)
    (h1 : s.phase ≠ Json.str doneChars) (h2 : s.phase ≠ Json.str errorChars) :
    step s (doneChars, payload) =
      { s with report := (match getField payload reportChars with
                          | some Json.null => payload
                          | some j => j
                          | none => payload),
               phase := Json.str doneChars,
               percent := 100,
               logLines := s.logLines ++ [LogEntry.doneLine] } := by
  simp +decide [step]

/-- C5 witness: the amended theorem applied to the initial state and an
empty-object payload. -/
theorem c5DoneEffectWitness :
    initialState.phase ≠ Json.str doneChars ∧
    initialState.phase ≠ Json.str errorChars ∧
    step initialState (doneChars, Json.obj []) =
      { initialState with report := Json.obj [],
                          phase := Json.str doneChars,
                          percent := 100,
                          logLines := [LogEntry.doneLine] } := by
  have hd : initialState.phase ≠ Json.str doneChars := by
    intro h
    injection h with h2
    exact absurd h2 (by decide)
  have he : initialState.phase ≠ Json.str errorChars := by
    intro h
    injection h with h2
    exact absurd h2 (by decide)
  exact ⟨hd, he, c5DoneEffect initialState (Json.obj []) hd he⟩

/-- C6: table round-trip.  The input `"A | B\n---|---\n1 | 2"` is grouped
into one table block whose built table has header cells `A`, `B` and one
body row with cells `1`, `2`; and in general every row kept by the
separator filter (hence every row that can appear as header or body) is
not a separator-only row. -/
theorem c6TableRoundTrip :
    (tableBlocks (splitOnChar '\n' tblInputC)).map buildTable =
      [some ([['A'], ['B']], [[['1'], ['2']]])] ∧
    (∀ (rows : List (List Char)) (r : List Char),
        r ∈ contentRowsOf rows → isSepRow r = false) := by
  refine ⟨by decide, ?_⟩
  intro rows r hr
  simp only [contentRowsOf, List.mem_filter] at hr
  simpa using hr.2

/-- C6 witness: the general separator statement applied at the concrete
table. -/
theorem c6TableRoundTripWitness :
    isSepRow "1 | 2".toList = false :=
  c6TableRoundTrip.2 ["A | B".toList, "---|---".toList, "1 | 2".toList] _
    (by decide)

/-- C7 counterexample: interior empty cells do not remain.  The row
`"a||b"` has an empty interior cell between consecutive separators, but
the cell extraction yields `["a", "b"]` — the empty interior cell is
dropped along with the leading/trailing ones. -/
theorem c7Counterexample :
    rowCells "a||b".toList = [['a'], ['b']] ∧
    rowCells "a||b".toList ≠ [['a'], [], ['b']] :=
  ⟨by decide, by decide⟩

/-- C7 (amended): each row is split on the column separator, every cell is
trimmed, and all empty cells are dropped — leading, trailing and interior
alike: no empty cell survives, the surviving cells are a subsequence of
the trimmed split, and every non-empty trimmed cell survives. -/
theorem c7CellExtraction (r : List Char) :
    (∀ c ∈ rowCells r, c ≠ []) ∧
    List.Sublist (rowCells r) ((splitOnChar '|' r).map trimChars) ∧
    (∀ c ∈ (splitOnChar '|' r).map trimChars, c ≠ [] → c ∈ rowCells r) := by
  refine ⟨?_, ?_, ?_⟩
  · intro c hc
    simp only [rowCells, List.mem_filter] at hc
    intro he
    rw [he] at hc
    simp at hc
  · exact List.filter_sublist _
  · intro c hc hne
    simp only [rowCells, List.mem_filter]
    refine ⟨hc, ?_⟩
    simpa using hne

/-- C7 witness: the amended statement applied to the row `"a||b"`. -/
theorem c7CellExtractionWitness :
    ((['a'] : List Char) ≠ []) ∧ (['a'] : List Char) ∈ rowCells "a||b".toList :=
  ⟨(c7CellExtraction "a||b".toList).1 ['a'] (by decide),
   (c7CellExtraction "a||b".toList).2.2 ['a'] (by decide) (by decide)⟩

/-- C8 counterexample: the substitution is not identical inside and
outside tables.  On the same text `"Claim [1]"`, the body substitution and
the table-cell substitution produce different markers: the body marker
carries the id in a `data-citation` attribute, the cell marker carries no
such attribute. -/
theorem c8Counterexample :
    citeSubBody claimInputC ≠ citeSubCell claimInputC ∧
    containsSeq dataCitChars (citeSubBody claimInputC) = true ∧
    containsSeq dataCitChars (citeSubCell claimInputC) = false :=
  ⟨by decide, by decide, by decide⟩

/-- C8 (amended): the two substitutions recognise exactly the same
bracketed-integer occurrences — both are the rendering of the same
template-independent match decomposition, each wrapping every matched id
in a superscript element — but the markers differ: the body marker
carries the id as a `data-citation` attribute (and a pointer cursor), the
table-cell marker does not. -/
theorem c8CitationStructure :
    (∀ s : List Char, citeSubBody s = renderPieces supBody (citePieces s)) ∧
    (∀ s : List Char, citeSubCell s = renderPieces supCell (citePieces s)) ∧
    supBody ['1'] ≠ supCell ['1'] := by
  refine ⟨?_, ?_, by decide⟩
  · intro s
    exact citeRun_eq_renderPieces supBody s none
  · intro s
    exact citeRun_eq_renderPieces supCell s none

set_option maxRecDepth 20000 in
/-- C9 counterexample: two contiguous runs of bullet items separated by a
non-item line are not each wrapped in their own container.  The single
wrap spans from the first item to the last closing item tag, so the
output contains exactly one unordered-list container, with the
intervening non-item line `x` inside it. -/
theorem c9Counterexample :
    listPass listGapInputC =
      ("<ul style=\"margin: 0.5rem 0; padding-left: 0;\">" ++
        "<li style=\"margin-left: 1.5rem;\">a</li>\nx\n" ++
        "<li style=\"margin-left: 1.5rem;\">b</li></ul>").toList ∧
    countSeq "<ul".toList (listPass listGapInputC) = 1 ∧
    countSeq "<li".toList (listPass listGapInputC) = 2 :=
  ⟨by decide, by decide, by decide⟩

set_option maxRecDepth 20000 in
/-- C9 (amended): bullet-marker and digit-dot lines become list items, but
the container wrapping is a single wrap of the first match of the
item-span pattern (all bullet items from the first to the last, any
intervening lines included, end up in one unordered-list container), and
numbered items are never wrapped in an ordered-list container — no
container at all is added for a purely numbered list. -/
theorem c9ListAsymmetry :
    (∀ s : List Char, wrapUl s = s ∨
        ∃ a m b, firstLiMatch s = some (a, m, b) ∧
          wrapUl s = a ++ ulOpenChars ++ m ++ ulCloseChars ++ b) ∧
    listPass "1. a\n2. b".toList =
      ("<li style=\"margin-left: 1.5rem;\">a</li>\n" ++
        "<li style=\"margin-left: 1.5rem;\">b</li>").toList ∧
    containsSeq "<ol".toList (listPass "1. a\n2. b".toList) = false ∧
    containsSeq "<ul".toList (listPass "1. a\n2. b".toList) = false ∧
    listPass "- a\n- b".toList =
      ("<ul style=\"margin: 0.5rem 0; padding-left: 0;\">" ++
        "<li style=\"margin-left: 1.5rem;\">a</li>\n" ++
        "<li style=\"margin-left: 1.5rem;\">b</li></ul>").toList := by
  refine ⟨?_, by decide, by decide, by decide, by decide⟩
  intro s
  cases h : firstLiMatch s with
  | none =>
    left
    simp [wrapUl, h]
  | some t =>
    right
    obtain ⟨a, m, b⟩ := t
    exact ⟨a, m, b, rfl, by simp [wrapUl, h]⟩

/-- C10 counterexample: an empty-string report is a plain string but is
not rendered directly — the component's truthiness guard (`if (!report)
return null`) renders nothing for it. -/
theorem c10Counterexample :
    reportContent zeroStringify (Json.str []) = none ∧
    (none : Option Json) ≠ some (Json.str []) := by
  refine ⟨rfl, ?_⟩
  intro h
  exact Option.noConfusion h

/-- C10 (amended): a falsy report (absent/null, and also the empty string)
renders nothing; a non-empty plain string is rendered directly; an object
whose `content` field is missing or null renders the object's JSON
serialisation; an object with a present non-null `content` renders that
field. -/
theorem c10ReportContent (stringify : Json → List Char) :
    (∀ r : Json, jsTruthy r = false → reportContent stringify r = none) ∧
    (∀ s : List Char, s ≠ [] →
        reportContent stringify (Json.str s) = some (Json.str s)) ∧
    (∀ fs, getField (Json.obj fs) contentChars = none →
        reportContent stringify (Json.obj fs) =
          some (Json.str (stringify (Json.obj fs)))) ∧
    (∀ fs, getField (Json.obj fs) contentChars = some Json.null →
        reportContent stringify (Json.obj fs) =
          some (Json.str (stringify (Json.obj fs)))) ∧
    (∀ fs j, getField (Json.obj fs) contentChars = some j → j ≠ Json.null →
        reportContent stringify (Json.obj fs) = some j) := by
  refine ⟨?_, ?_, ?_, ?_, ?_⟩
  · intro r h
    simp [reportContent, h]
  · intro s h
    have ht : jsTruthy (Json.str s) = true := by simp [jsTruthy, h]
    simp [reportContent, ht]
  · intro fs h
    simp [reportContent, jsTruthy, h]
  · intro fs h
    simp [reportContent, jsTruthy, h]
  · intro fs j h hne
    cases j with
    | null => exact absurd rfl hne
    | bool b => simp [reportContent, jsTruthy, h]
    | num n => simp [reportContent, jsTruthy, h]
    | str s => simp [reportContent, jsTruthy, h]
    | arr xs => simp [reportContent, jsTruthy, h]
    | obj f2 => simp [reportContent, jsTruthy, h]

/-- C10 witness: the amended statements at concrete reports. -/
theorem c10ReportContentWitness :
    reportContent zeroStringify Json.null = none ∧
    reportContent zeroStringify (Json.str ['h']) = some (Json.str ['h']) ∧
    reportContent zeroStringify (Json.obj []) = some (Json.str []) ∧
    reportContent zeroStringify (Json.obj [(contentChars, Json.null)]) =
      some (Json.str []) ∧
    reportContent zeroStringify (Json.obj [(contentChars, Json.str ['x'])]) =
      some (Json.str ['x']) :=
  ⟨(c10ReportContent zeroStringify).1 Json.null rfl,
   (c10ReportContent zeroStringify).2.1 ['h'] (by decide),
   (c10ReportContent zeroStringify).2.2.1 [] rfl,
   (c10ReportContent zeroStringify).2.2.2.1 [(contentChars, Json.null)] rfl,
   (c10ReportContent zeroStringify).2.2.2.2 [(contentChars, Json.str ['x'])]
     (Json.str ['x']) rfl (fun h => Json.noConfusion h)⟩
